import Mathlib

/-!
Shallow embedding of the `game-of-life` repository (`src/board.rs`, `src/main.rs`)
and proofs about its core operations.

Conventions of the embedding:
* Rust `Vec<T>` is modelled as `List T`; `usize` as `Nat`; `isize` as `Int`.
* Rust strings are modelled as lists of `Char` (one entry per Unicode scalar value).
* The panicking index expression `self.state[row][col]` is modelled twice:
  `Board.cellAt` (total, with `Cell.Dead` as the out-of-range default, used by the
  executable transition function) and `Board.cellGet` (an `Option`, `none` exactly
  when the Rust indexing would panic); `cellGet_eq_some_cellAt` shows the accesses
  the code performs are in range, so the two models agree on them.
* The thread-local RNG used by `random_state` is modelled as an abstract stream of
  booleans, one per cell in row-major order, each being the outcome of the Rust
  draw `rng.gen::<f32>() > 0.85`.
-/

/-- The cell state enum `Cell` from `board.rs`: `Alive` or `Dead`, no payload. -/
inductive Cell : Type where
  | Alive : Cell
  | Dead : Cell
  deriving DecidableEq

/-- The struct `Board` from `board.rs`: a `size` pair `(width, height)` and a
row-major grid `state` of cells. -/
structure Board : Type where
  size : Nat × Nat
  state : List (List Cell)
  deriving DecidableEq

/-- Total model of the Rust index expression `self.state[r][c]`: out-of-range
rows give the empty row and out-of-range columns give `Cell.Dead`. -/
def Board.cellAt (b : Board) (r c : Nat) : Cell :=
  (b.state.getD r []).getD c Cell.Dead

/-- Partial model of the Rust index expression `self.state[r][c]`: `none` exactly
when the Rust code would panic with an out-of-bounds index. -/
def Board.cellGet (b : Board) (r c : Nat) : Option Cell :=
  (b.state.get? r).bind fun row => row.get? c

/-- `Board::dead_state` from `board.rs`: `height` rows of `width` dead cells,
with the `size` field set to `(width, height)`. -/
def Board.dead_state (width height : Nat) : Board :=
  { size := (width, height)
    state := List.replicate height (List.replicate width Cell.Dead) }

/-- `Board::random_state` from `board.rs`: starts from `dead_state` and flips each
cell to `Alive` when the RNG draw for that cell succeeds.  The RNG is modelled as
the boolean stream `draws`, read in row-major order (the order of the Rust loop);
`draws i = true` models `rng.gen::<f32>() > 0.85` at the i-th draw. -/
def Board.random_state (width height : Nat) (draws : Nat → Bool) : Board :=
  { size := (width, height)
    state := (List.range height).map fun row =>
      (List.range width).map fun col =>
        if draws (row * width + col) then Cell.Alive else Cell.Dead }

/-- One iteration of the inner `for col in x - 1..=x + 1` loop body of
`Board::next_cell_state`: contributes 1 when the column guard passes and the
cell is alive, 0 otherwise (the `continue` branches). -/
def Board.colTerm (b : Board) (x y row col : Int) : Nat :=
  if (col < 0 ∨ col ≥ (b.size.1 : Int)) ∨ (x = col ∧ y = row) then 0
  else if b.cellAt row.toNat col.toNat = Cell.Alive then 1 else 0

/-- One iteration of the outer `for row in y - 1..=y + 1` loop of
`Board::next_cell_state`: 0 when the row guard `row < 0 || row >= height` hits
`continue`, otherwise the contributions of the three columns `x-1, x, x+1`. -/
def Board.rowTerm (b : Board) (x y row : Int) : Nat :=
  if row < 0 ∨ row ≥ (b.size.2 : Int) then 0
  else ([x - 1, x, x + 1].map fun col => b.colTerm x y row col).sum

/-- The `live_neighbours` accumulator of `Board::next_cell_state` after both
loops: the sum of the row contributions for `y-1, y, y+1`. -/
def Board.live_neighbours (b : Board) (x y : Int) : Nat :=
  ([y - 1, y, y + 1].map fun row => b.rowTerm x y row).sum

/-- `Board::next_cell_state` from `board.rs`: the coordinate pair is `(x, y)` =
`(col, row)`; the cell's own state is read at `state[y][x]` and combined with
the live-neighbour count by the match on `(state, live_neighbours)`. -/
def Board.next_cell_state (b : Board) (coords : Int × Int) : Cell :=
  match b.cellAt coords.2.toNat coords.1.toNat with
  | Cell.Alive =>
      if b.live_neighbours coords.1 coords.2 = 2 ∨ b.live_neighbours coords.1 coords.2 = 3 then
        Cell.Alive
      else Cell.Dead
  | Cell.Dead =>
      if b.live_neighbours coords.1 coords.2 = 3 then Cell.Alive else Cell.Dead

/-- `Board::next_board_state` from `board.rs`: a fresh board of the same `size`
whose every position `(row, col)` holds `next_cell_state (col, row)` of the old
board.  (The Rust code allocates `dead_state` and overwrites every cell of it;
the grid built here position by position is that filled grid.) -/
def Board.next_board_state (b : Board) : Board :=
  { size := b.size
    state := (List.range b.size.2).map fun (row : Nat) =>
      (List.range b.size.1).map fun (col : Nat) =>
        b.next_cell_state ((col : Int), (row : Int)) }

/-- The character a cell is displayed as in `impl Display for Cell`:
U+2588 (full block) for `Alive`, a space for `Dead`. -/
def Cell.glyph : Cell → Char
  | Cell.Alive => '█'
  | Cell.Dead => ' '

/-- `impl Display for Cell`: the glyph written twice (`write!(f, "{0}{0}", ch)`). -/
def Cell.display (c : Cell) : List Char :=
  [c.glyph, c.glyph]

/-- One line of `impl Display for Board`: the displayed cells of a row,
concatenated (`join("")`). -/
def renderRow (row : List Cell) : List Char :=
  (row.map Cell.display).flatten

/-- `impl Display for Board`: the rendered rows joined by a newline
(`join("\n")`), with no trailing newline. -/
def Board.display (b : Board) : List Char :=
  List.intercalate ['\n'] (b.state.map renderRow)

/-- Consistency invariant of a `Board` value: the stored `size` pair matches the
actual grid, i.e. `state` has `height` rows and every row has `width` cells. -/
def Board.wellformed (b : Board) : Prop :=
  b.state.length = b.size.2 ∧ ∀ row ∈ b.state, row.length = b.size.1

instance (b : Board) : Decidable b.wellformed := by
  unfold Board.wellformed
  infer_instance

/-- Modelled from the spec: the transition rule as stated in §4.2, a function of
the current state and the live-neighbour count only (survive on 2 or 3, birth on
exactly 3, otherwise dead). -/
def specRule (s : Cell) (n : Nat) : Cell :=
  match s with
  | Cell.Alive => if n = 2 ∨ n = 3 then Cell.Alive else Cell.Dead
  | Cell.Dead => if n = 3 then Cell.Alive else Cell.Dead

/-- Modelled from the spec: the contribution of one candidate position
`(row, col)` to the spec's live-neighbour count — 1 exactly when the position is
inside `[0,H) × [0,W)` and holds an alive cell. -/
def specTerm (b : Board) (row col : Int) : Nat :=
  if 0 ≤ row ∧ row < (b.size.2 : Int) ∧ 0 ≤ col ∧ col < (b.size.1 : Int) ∧
      b.cellAt row.toNat col.toNat = Cell.Alive then 1 else 0

/-- Modelled from the spec (§4.2): the number of alive cells among the 8
positions whose row differs from `r` by at most 1 and whose column differs from
`c` by at most 1, excluding `(r, c)` itself and every out-of-bounds position. -/
def specLiveNeighbours (b : Board) (r c : Int) : Nat :=
  specTerm b (r - 1) (c - 1) + specTerm b (r - 1) c + specTerm b (r - 1) (c + 1) +
  specTerm b r (c - 1) + specTerm b r (c + 1) +
  specTerm b (r + 1) (c - 1) + specTerm b (r + 1) c + specTerm b (r + 1) (c + 1)

/-- Modelled from the spec: 1 when `(row, col)` lies inside `[0,H) × [0,W)`,
used to count how many of the 8 Chebyshev-adjacent candidates survive the
bounds check (no wraparound). -/
def candidateTerm (W H : Nat) (row col : Int) : Nat :=
  if 0 ≤ row ∧ row < (H : Int) ∧ 0 ≤ col ∧ col < (W : Int) then 1 else 0

/-- Modelled from the spec: the number of in-bounds candidate neighbour
positions of `(r, c)` on a `W×H` grid. -/
def candidateCount (W H : Nat) (r c : Int) : Nat :=
  candidateTerm W H (r - 1) (c - 1) + candidateTerm W H (r - 1) c +
  candidateTerm W H (r - 1) (c + 1) +
  candidateTerm W H r (c - 1) + candidateTerm W H r (c + 1) +
  candidateTerm W H (r + 1) (c - 1) + candidateTerm W H (r + 1) c +
  candidateTerm W H (r + 1) (c + 1)

/-! Helper lemmas: the loop-based neighbour count of `next_cell_state` agrees
with the spec's description of the count. -/

lemma colTerm_eq_specTerm (b : Board) (x y row col : Int)
    (hrow : 0 ≤ row ∧ row < (b.size.2 : Int)) (hne : ¬(x = col ∧ y = row)) :
    b.colTerm x y row col = specTerm b row col := by
  unfold Board.colTerm specTerm
  by_cases hc : col < 0 ∨ col ≥ (b.size.1 : Int)
  · rw [if_pos (Or.inl hc), if_neg]
    rintro ⟨-, -, h3, h4, -⟩
    omega
  · rw [if_neg (by tauto)]
    by_cases ha : b.cellAt row.toNat col.toNat = Cell.Alive
    · rw [if_pos ha, if_pos ⟨hrow.1, hrow.2, by omega, by omega, ha⟩]
    · rw [if_neg ha, if_neg fun h => ha h.2.2.2.2]

lemma colTerm_center (b : Board) (x y : Int) : b.colTerm x y y x = 0 := by
  unfold Board.colTerm
  rw [if_pos (Or.inr ⟨rfl, rfl⟩)]

lemma specTerm_row_oob (b : Board) (row col : Int)
    (h : row < 0 ∨ (b.size.2 : Int) ≤ row) : specTerm b row col = 0 := by
  unfold specTerm
  rw [if_neg]
  rintro ⟨h1, h2, -⟩
  omega

lemma rowTerm_ne (b : Board) (x y row : Int) (hne : y ≠ row) :
    b.rowTerm x y row = specTerm b row (x - 1) + specTerm b row x + specTerm b row (x + 1) := by
  unfold Board.rowTerm
  by_cases hrow : row < 0 ∨ row ≥ (b.size.2 : Int)
  · rw [if_pos hrow, specTerm_row_oob b _ _ (by omega), specTerm_row_oob b _ _ (by omega),
      specTerm_row_oob b _ _ (by omega)]
  · rw [if_neg hrow]
    push_neg at hrow
    simp only [List.map_cons, List.map_nil, List.sum_cons, List.sum_nil]
    rw [colTerm_eq_specTerm b x y row (x - 1) ⟨hrow.1, hrow.2⟩ (by rintro ⟨h, -⟩; omega),
      colTerm_eq_specTerm b x y row x ⟨hrow.1, hrow.2⟩ (by rintro ⟨-, h⟩; exact hne h),
      colTerm_eq_specTerm b x y row (x + 1) ⟨hrow.1, hrow.2⟩ (by rintro ⟨h, -⟩; omega)]
    omega

lemma rowTerm_center (b : Board) (x y : Int) :
    b.rowTerm x y y = specTerm b y (x - 1) + specTerm b y (x + 1) := by
  unfold Board.rowTerm
  by_cases hrow : y < 0 ∨ y ≥ (b.size.2 : Int)
  · rw [if_pos hrow, specTerm_row_oob b _ _ (by omega), specTerm_row_oob b _ _ (by omega)]
  · rw [if_neg hrow]
    push_neg at hrow
    simp only [List.map_cons, List.map_nil, List.sum_cons, List.sum_nil]
    rw [colTerm_eq_specTerm b x y y (x - 1) ⟨hrow.1, hrow.2⟩ (by rintro ⟨h, -⟩; omega),
      colTerm_center,
      colTerm_eq_specTerm b x y y (x + 1) ⟨hrow.1, hrow.2⟩ (by rintro ⟨h, -⟩; omega)]
    omega

lemma live_neighbours_eq_spec (b : Board) (x y : Int) :
    b.live_neighbours x y = specLiveNeighbours b y x := by
  unfold Board.live_neighbours specLiveNeighbours
  simp only [List.map_cons, List.map_nil, List.sum_cons, List.sum_nil]
  rw [rowTerm_ne b x y (y - 1) (by omega), rowTerm_center b x y,
    rowTerm_ne b x y (y + 1) (by omega)]
  omega

lemma candidateTerm_one (W H : Nat) (row col : Int) (h1 : 0 ≤ row) (h2 : row < (H : Int))
    (h3 : 0 ≤ col) (h4 : col < (W : Int)) : candidateTerm W H row col = 1 :=
  if_pos ⟨h1, h2, h3, h4⟩

lemma candidateTerm_zero_row (W H : Nat) (row col : Int) (h : row < 0 ∨ (H : Int) ≤ row) :
    candidateTerm W H row col = 0 := by
  unfold candidateTerm
  rw [if_neg]
  rintro ⟨h1, h2, -⟩
  omega

lemma candidateTerm_zero_col (W H : Nat) (row col : Int) (h : col < 0 ∨ (W : Int) ≤ col) :
    candidateTerm W H row col = 0 := by
  unfold candidateTerm
  rw [if_neg]
  rintro ⟨-, -, h3, h4⟩
  omega

lemma candidateCount_corner (W H : Nat) (r c : Int) (hW : 2 ≤ W) (hH : 2 ≤ H)
    (hr : r = 0 ∨ r = (H : Int) - 1) (hc : c = 0 ∨ c = (W : Int) - 1) :
    candidateCount W H r c = 3 := by
  unfold candidateCount
  rcases hr with rfl | rfl <;> rcases hc with rfl | rfl
  · rw [candidateTerm_zero_row W H (0 - 1) (0 - 1) (by omega),
      candidateTerm_zero_row W H (0 - 1) 0 (by omega),
      candidateTerm_zero_row W H (0 - 1) (0 + 1) (by omega),
      candidateTerm_zero_col W H 0 (0 - 1) (by omega),
      candidateTerm_one W H 0 (0 + 1) (by omega) (by omega) (by omega) (by omega),
      candidateTerm_zero_col W H (0 + 1) (0 - 1) (by omega),
      candidateTerm_one W H (0 + 1) 0 (by omega) (by omega) (by omega) (by omega),
      candidateTerm_one W H (0 + 1) (0 + 1) (by omega) (by omega) (by omega) (by omega)]
  · rw [candidateTerm_zero_row W H (0 - 1) ((W : Int) - 1 - 1) (by omega),
      candidateTerm_zero_row W H (0 - 1) ((W : Int) - 1) (by omega),
      candidateTerm_zero_row W H (0 - 1) ((W : Int) - 1 + 1) (by omega),
      candidateTerm_one W H 0 ((W : Int) - 1 - 1) (by omega) (by omega) (by omega) (by omega),
      candidateTerm_zero_col W H 0 ((W : Int) - 1 + 1) (by omega),
      candidateTerm_one W H (0 + 1) ((W : Int) - 1 - 1) (by omega) (by omega) (by omega) (by omega),
      candidateTerm_one W H (0 + 1) ((W : Int) - 1) (by omega) (by omega) (by omega) (by omega),
      candidateTerm_zero_col W H (0 + 1) ((W : Int) - 1 + 1) (by omega)]
  · rw [candidateTerm_zero_col W H ((H : Int) - 1 - 1) (0 - 1) (by omega),
      candidateTerm_one W H ((H : Int) - 1 - 1) 0 (by omega) (by omega) (by omega) (by omega),
      candidateTerm_one W H ((H : Int) - 1 - 1) (0 + 1) (by omega) (by omega) (by omega) (by omega),
      candidateTerm_zero_col W H ((H : Int) - 1) (0 - 1) (by omega),
      candidateTerm_one W H ((H : Int) - 1) (0 + 1) (by omega) (by omega) (by omega) (by omega),
      candidateTerm_zero_row W H ((H : Int) - 1 + 1) (0 - 1) (by omega),
      candidateTerm_zero_row W H ((H : Int) - 1 + 1) 0 (by omega),
      candidateTerm_zero_row W H ((H : Int) - 1 + 1) (0 + 1) (by omega)]
  · rw [candidateTerm_one W H ((H : Int) - 1 - 1) ((W : Int) - 1 - 1) (by omega) (by omega) (by omega) (by omega),
      candidateTerm_one W H ((H : Int) - 1 - 1) ((W : Int) - 1) (by omega) (by omega) (by omega) (by omega),
      candidateTerm_zero_col W H ((H : Int) - 1 - 1) ((W : Int) - 1 + 1) (by omega),
      candidateTerm_one W H ((H : Int) - 1) ((W : Int) - 1 - 1) (by omega) (by omega) (by omega) (by omega),
      candidateTerm_zero_col W H ((H : Int) - 1) ((W : Int) - 1 + 1) (by omega),
      candidateTerm_zero_row W H ((H : Int) - 1 + 1) ((W : Int) - 1 - 1) (by omega),
      candidateTerm_zero_row W H ((H : Int) - 1 + 1) ((W : Int) - 1) (by omega),
      candidateTerm_zero_row W H ((H : Int) - 1 + 1) ((W : Int) - 1 + 1) (by omega)]

lemma candidateCount_edge (W H : Nat) (r c : Int)
    (h : ((r = 0 ∨ r = (H : Int) - 1) ∧ 1 ≤ c ∧ c ≤ (W : Int) - 2 ∧ 2 ≤ H) ∨
      ((c = 0 ∨ c = (W : Int) - 1) ∧ 1 ≤ r ∧ r ≤ (H : Int) - 2 ∧ 2 ≤ W)) :
    candidateCount W H r c = 5 := by
  unfold candidateCount
  rcases h with ⟨hr, hc1, hc2, hH⟩ | ⟨hc, hr1, hr2, hW⟩
  · rcases hr with rfl | rfl
    · rw [candidateTerm_zero_row W H (0 - 1) (c - 1) (by omega),
        candidateTerm_zero_row W H (0 - 1) c (by omega),
        candidateTerm_zero_row W H (0 - 1) (c + 1) (by omega),
        candidateTerm_one W H 0 (c - 1) (by omega) (by omega) (by omega) (by omega),
        candidateTerm_one W H 0 (c + 1) (by omega) (by omega) (by omega) (by omega),
        candidateTerm_one W H (0 + 1) (c - 1) (by omega) (by omega) (by omega) (by omega),
        candidateTerm_one W H (0 + 1) c (by omega) (by omega) (by omega) (by omega),
        candidateTerm_one W H (0 + 1) (c + 1) (by omega) (by omega) (by omega) (by omega)]
    · rw [candidateTerm_one W H ((H : Int) - 1 - 1) (c - 1) (by omega) (by omega) (by omega) (by omega),
        candidateTerm_one W H ((H : Int) - 1 - 1) c (by omega) (by omega) (by omega) (by omega),
        candidateTerm_one W H ((H : Int) - 1 - 1) (c + 1) (by omega) (by omega) (by omega) (by omega),
        candidateTerm_one W H ((H : Int) - 1) (c - 1) (by omega) (by omega) (by omega) (by omega),
        candidateTerm_one W H ((H : Int) - 1) (c + 1) (by omega) (by omega) (by omega) (by omega),
        candidateTerm_zero_row W H ((H : Int) - 1 + 1) (c - 1) (by omega),
        candidateTerm_zero_row W H ((H : Int) - 1 + 1) c (by omega),
        candidateTerm_zero_row W H ((H : Int) - 1 + 1) (c + 1) (by omega)]
  · rcases hc with rfl | rfl
    · rw [candidateTerm_zero_col W H (r - 1) (0 - 1) (by omega),
        candidateTerm_one W H (r - 1) 0 (by omega) (by omega) (by omega) (by omega),
        candidateTerm_one W H (r - 1) (0 + 1) (by omega) (by omega) (by omega) (by omega),
        candidateTerm_zero_col W H r (0 - 1) (by omega),
        candidateTerm_one W H r (0 + 1) (by omega) (by omega) (by omega) (by omega),
        candidateTerm_zero_col W H (r + 1) (0 - 1) (by omega),
        candidateTerm_one W H (r + 1) 0 (by omega) (by omega) (by omega) (by omega),
        candidateTerm_one W H (r + 1) (0 + 1) (by omega) (by omega) (by omega) (by omega)]
    · rw [candidateTerm_one W H (r - 1) ((W : Int) - 1 - 1) (by omega) (by omega) (by omega) (by omega),
        candidateTerm_one W H (r - 1) ((W : Int) - 1) (by omega) (by omega) (by omega) (by omega),
        candidateTerm_zero_col W H (r - 1) ((W : Int) - 1 + 1) (by omega),
        candidateTerm_one W H r ((W : Int) - 1 - 1) (by omega) (by omega) (by omega) (by omega),
        candidateTerm_zero_col W H r ((W : Int) - 1 + 1) (by omega),
        candidateTerm_one W H (r + 1) ((W : Int) - 1 - 1) (by omega) (by omega) (by omega) (by omega),
        candidateTerm_one W H (r + 1) ((W : Int) - 1) (by omega) (by omega) (by omega) (by omega),
        candidateTerm_zero_col W H (r + 1) ((W : Int) - 1 + 1) (by omega)]

lemma candidateCount_interior (W H : Nat) (r c : Int)
    (hr : 1 ≤ r ∧ r ≤ (H : Int) - 2) (hc : 1 ≤ c ∧ c ≤ (W : Int) - 2) :
    candidateCount W H r c = 8 := by
  unfold candidateCount
  rw [candidateTerm_one W H (r - 1) (c - 1) (by omega) (by omega) (by omega) (by omega),
    candidateTerm_one W H (r - 1) c (by omega) (by omega) (by omega) (by omega),
    candidateTerm_one W H (r - 1) (c + 1) (by omega) (by omega) (by omega) (by omega),
    candidateTerm_one W H r (c - 1) (by omega) (by omega) (by omega) (by omega),
    candidateTerm_one W H r (c + 1) (by omega) (by omega) (by omega) (by omega),
    candidateTerm_one W H (r + 1) (c - 1) (by omega) (by omega) (by omega) (by omega),
    candidateTerm_one W H (r + 1) c (by omega) (by omega) (by omega) (by omega),
    candidateTerm_one W H (r + 1) (c + 1) (by omega) (by omega) (by omega) (by omega)]

/-! Helper lemmas: shapes of the constructed boards and evaluation of the
transition at in-range positions. -/

lemma wellformed_dead_state (w h : Nat) : (Board.dead_state w h).wellformed := by
  constructor
  · simp [Board.dead_state]
  · intro row hrow
    rcases (List.mem_replicate.mp hrow).2 with rfl
    simp [Board.dead_state]

lemma wellformed_random_state (w h : Nat) (draws : Nat → Bool) :
    (Board.random_state w h draws).wellformed := by
  constructor
  · simp [Board.random_state]
  · intro row hrow
    simp only [Board.random_state, List.mem_map, List.mem_range] at hrow
    obtain ⟨i, hi, rfl⟩ := hrow
    simp [Board.random_state]

lemma wellformed_next (b : Board) : b.next_board_state.wellformed := by
  constructor
  · simp [Board.next_board_state]
  · intro row hrow
    simp only [Board.next_board_state, List.mem_map, List.mem_range] at hrow
    obtain ⟨i, hi, rfl⟩ := hrow
    simp [Board.next_board_state]

lemma getD_replicate_self {α : Type} (n i : Nat) (a : α) :
    (List.replicate n a).getD i a = a := by
  rw [List.getD_eq_getElem?_getD, List.getElem?_replicate]
  split <;> rfl

lemma cellAt_dead (w h r c : Nat) : (Board.dead_state w h).cellAt r c = Cell.Dead := by
  unfold Board.dead_state Board.cellAt
  dsimp only
  rw [List.getD_eq_getElem?_getD (List.replicate h (List.replicate w Cell.Dead)) r [],
    List.getElem?_replicate]
  split
  · exact getD_replicate_self w c Cell.Dead
  · rfl

lemma live_neighbours_dead (w h : Nat) (x y : Int) :
    (Board.dead_state w h).live_neighbours x y = 0 := by
  simp [Board.live_neighbours, Board.rowTerm, Board.colTerm, cellAt_dead]

lemma next_cell_state_eq_rule (b : Board) (x y : Int) :
    b.next_cell_state (x, y) = specRule (b.cellAt y.toNat x.toNat) (b.live_neighbours x y) := by
  unfold Board.next_cell_state specRule
  cases b.cellAt y.toNat x.toNat <;> rfl

lemma next_cell_dead (w h : Nat) (x y : Int) :
    (Board.dead_state w h).next_cell_state (x, y) = Cell.Dead := by
  rw [next_cell_state_eq_rule, cellAt_dead, live_neighbours_dead]
  rfl

lemma Board.eq_of (b1 b2 : Board) (h1 : b1.size = b2.size) (h2 : b1.state = b2.state) :
    b1 = b2 := by
  cases b1
  cases b2
  simp only [Board.mk.injEq]
  exact ⟨h1, h2⟩

lemma next_dead (w h : Nat) :
    (Board.dead_state w h).next_board_state = Board.dead_state w h := by
  refine Board.eq_of _ _ rfl ?_
  show ((List.range (Board.dead_state w h).size.2).map fun (row : Nat) =>
    (List.range (Board.dead_state w h).size.1).map fun (col : Nat) =>
      (Board.dead_state w h).next_cell_state ((col : Int), (row : Int))) =
    List.replicate h (List.replicate w Cell.Dead)
  have hs1 : (Board.dead_state w h).size.1 = w := rfl
  have hs2 : (Board.dead_state w h).size.2 = h := rfl
  rw [hs1, hs2, List.eq_replicate_iff]
  refine ⟨by simp, ?_⟩
  intro rowl hrowl
  simp only [List.mem_map, List.mem_range] at hrowl
  obtain ⟨i, hi, rfl⟩ := hrowl
  rw [List.eq_replicate_iff]
  refine ⟨by simp, ?_⟩
  intro cl hcl
  simp only [List.mem_map, List.mem_range] at hcl
  obtain ⟨j, hj, rfl⟩ := hcl
  exact next_cell_dead w h j i

lemma cellAt_next (b : Board) (r c : Nat) (hr : r < b.size.2) (hc : c < b.size.1) :
    b.next_board_state.cellAt r c = b.next_cell_state ((c : Int), (r : Int)) := by
  simp [Board.next_board_state, Board.cellAt, List.getD_eq_getElem?_getD,
    List.getElem?_map, List.getElem?_range, hr, hc]

lemma cellGet_eq_some_cellAt (b : Board) (r c : Nat) (hwf : b.wellformed)
    (hr : r < b.size.2) (hc : c < b.size.1) : b.cellGet r c = some (b.cellAt r c) := by
  obtain ⟨hlen, hrows⟩ := hwf
  have hr2 : r < b.state.length := by omega
  have hc2 : c < b.state[r].length := by
    rw [hrows b.state[r] (List.getElem_mem hr2)]
    omega
  unfold Board.cellGet Board.cellAt
  rw [List.get?_eq_getElem?, List.getElem?_eq_getElem hr2, Option.some_bind,
    List.get?_eq_getElem?, List.getElem?_eq_getElem hc2]
  rw [List.getD_eq_getElem?_getD b.state r [], List.getElem?_eq_getElem hr2, Option.getD_some,
    List.getD_eq_getElem?_getD, List.getElem?_eq_getElem hc2, Option.getD_some]

lemma next_degenerate (b : Board) (h : b.size.1 = 0 ∨ b.size.2 = 0) :
    b.next_board_state = Board.dead_state b.size.1 b.size.2 := by
  refine Board.eq_of _ _ ?_ ?_
  · show b.size = (b.size.1, b.size.2)
    rfl
  · show ((List.range b.size.2).map fun (row : Nat) =>
      (List.range b.size.1).map fun (col : Nat) =>
        b.next_cell_state ((col : Int), (row : Int))) =
      List.replicate b.size.2 (List.replicate b.size.1 Cell.Dead)
    rcases h with h | h <;> rw [h] <;> simp

/-! Helper lemmas for the display model. -/

lemma renderRow_length (row : List Cell) : (renderRow row).length = 2 * row.length := by
  induction row with
  | nil => rfl
  | cons cl cls ih =>
    simp only [renderRow, List.map_cons, List.flatten_cons, List.length_append,
      List.length_cons] at *
    simp [Cell.display, ih]
    omega

lemma mem_renderRow (row : List Cell) (ch : Char) (h : ch ∈ renderRow row) :
    ch = '█' ∨ ch = ' ' := by
  simp only [renderRow, List.mem_flatten, List.mem_map] at h
  obtain ⟨l, ⟨cl, hcl, rfl⟩, hch⟩ := h
  cases cl <;> simp [Cell.display, Cell.glyph] at hch <;> simp [hch]

lemma display_splitOn (b : Board) (hne : b.state ≠ []) :
    b.display.splitOn '\n' = b.state.map renderRow := by
  unfold Board.display
  apply List.splitOn_intercalate
  · intro l hl
    simp only [List.mem_map] at hl
    obtain ⟨row, hrow, rfl⟩ := hl
    intro hmem
    rcases mem_renderRow row _ hmem with h | h
    · exact absurd h (by decide)
    · exact absurd h (by decide)
  · simpa using hne

/-! Claim theorems. -/

/-- C1: the live-neighbour count used by `next_board_state` is exactly the
number of alive cells among the up-to-8 positions at row distance ≤ 1 and
column distance ≤ 1, excluding the cell itself and every out-of-bounds
position; and, with no wraparound, a corner cell has 3 in-bounds candidate
neighbours, an edge cell 5, an interior cell 8. -/
theorem neighbour_count_spec :
    (∀ (b : Board) (x y : Int), b.live_neighbours x y = specLiveNeighbours b y x) ∧
    (∀ (W H : Nat) (r c : Int), 2 ≤ W → 2 ≤ H → (r = 0 ∨ r = (H : Int) - 1) →
      (c = 0 ∨ c = (W : Int) - 1) → candidateCount W H r c = 3) ∧
    (∀ (W H : Nat) (r c : Int),
      ((r = 0 ∨ r = (H : Int) - 1) ∧ 1 ≤ c ∧ c ≤ (W : Int) - 2 ∧ 2 ≤ H) ∨
        ((c = 0 ∨ c = (W : Int) - 1) ∧ 1 ≤ r ∧ r ≤ (H : Int) - 2 ∧ 2 ≤ W) →
      candidateCount W H r c = 5) ∧
    (∀ (W H : Nat) (r c : Int), 1 ≤ r ∧ r ≤ (H : Int) - 2 → 1 ≤ c ∧ c ≤ (W : Int) - 2 →
      candidateCount W H r c = 8) :=
  ⟨live_neighbours_eq_spec, candidateCount_corner, candidateCount_edge, candidateCount_interior⟩

/-- Witness for C1 at concrete inputs. -/
theorem neighbour_count_spec_witness :
    (Board.mk (3, 3) [[Cell.Dead, Cell.Dead, Cell.Alive], [Cell.Dead, Cell.Alive, Cell.Alive],
        [Cell.Dead, Cell.Dead, Cell.Dead]]).live_neighbours 1 1 =
      specLiveNeighbours (Board.mk (3, 3) [[Cell.Dead, Cell.Dead, Cell.Alive],
        [Cell.Dead, Cell.Alive, Cell.Alive], [Cell.Dead, Cell.Dead, Cell.Dead]]) 1 1 ∧
    candidateCount 4 5 0 0 = 3 ∧ candidateCount 4 5 0 1 = 5 ∧ candidateCount 4 5 1 1 = 8 :=
  ⟨neighbour_count_spec.1 _ 1 1,
    neighbour_count_spec.2.1 4 5 0 0 (by decide) (by decide) (by decide) (by decide),
    neighbour_count_spec.2.2.1 4 5 0 1 (by decide),
    neighbour_count_spec.2.2.2 4 5 1 1 (by decide) (by decide)⟩

/-- C2: each output cell of `next_board_state` is `specRule` (survive on 2 or 3,
birth on exactly 3, otherwise dead) applied to that cell's state in the input
board and its live-neighbour count in the input board — so the new value
depends on the old board only, never on already-computed output cells. -/
theorem next_cell_follows_rule (b : Board) (r c : Nat) (hr : r < b.size.2) (hc : c < b.size.1) :
    b.next_board_state.cellAt r c =
      specRule (b.cellAt r c) (specLiveNeighbours b (r : Int) (c : Int)) := by
  rw [cellAt_next b r c hr hc, next_cell_state_eq_rule, live_neighbours_eq_spec,
    Int.toNat_natCast, Int.toNat_natCast]

/-- Witness for C2 at a concrete board and cell. -/
theorem next_cell_follows_rule_witness :
    (Board.mk (2, 2) [[Cell.Alive, Cell.Alive], [Cell.Alive, Cell.Dead]]).next_board_state.cellAt
        0 0 =
      specRule ((Board.mk (2, 2) [[Cell.Alive, Cell.Alive], [Cell.Alive, Cell.Dead]]).cellAt 0 0)
        (specLiveNeighbours (Board.mk (2, 2) [[Cell.Alive, Cell.Alive], [Cell.Alive, Cell.Dead]])
          ((0 : Nat) : Int) ((0 : Nat) : Int)) :=
  next_cell_follows_rule _ 0 0 (by decide) (by decide)

/-- C3: `next_board_state` of a W×H board is again W×H: the `size` field is
unchanged, there are as many rows as before, and every row has W cells. -/
theorem next_board_same_size (b : Board) (hwf : b.wellformed) :
    b.next_board_state.size = b.size ∧
    b.next_board_state.state.length = b.state.length ∧
    ∀ row ∈ b.next_board_state.state, row.length = b.size.1 := by
  obtain ⟨h1, h2⟩ := wellformed_next b
  exact ⟨rfl, h1.trans hwf.1.symm, h2⟩

/-- Witness for C3 at a concrete board. -/
theorem next_board_same_size_witness :
    (Board.dead_state 2 3).next_board_state.size = (Board.dead_state 2 3).size ∧
    (Board.dead_state 2 3).next_board_state.state.length = (Board.dead_state 2 3).state.length ∧
    ∀ row ∈ (Board.dead_state 2 3).next_board_state.state,
      row.length = (Board.dead_state 2 3).size.1 :=
  next_board_same_size (Board.dead_state 2 3) (by decide)

/-- C4: the all-dead board of any size is a fixed point of the transition. -/
theorem next_dead_state_eq (w h : Nat) :
    (Board.dead_state w h).next_board_state = Board.dead_state w h :=
  next_dead w h

/-- C5: `dead_state w h` always succeeds and has exactly h rows of w cells,
every cell dead, including the degenerate sizes w = 0 or h = 0. -/
theorem dead_state_shape (w h : Nat) :
    (Board.dead_state w h).size = (w, h) ∧
    (Board.dead_state w h).state.length = h ∧
    ∀ row ∈ (Board.dead_state w h).state, row.length = w ∧ ∀ cl ∈ row, cl = Cell.Dead := by
  refine ⟨rfl, by simp [Board.dead_state], ?_⟩
  intro row hrow
  simp only [Board.dead_state] at hrow
  rcases (List.mem_replicate.mp hrow).2 with rfl
  exact ⟨by simp, fun cl hcl => List.eq_of_mem_replicate hcl⟩

/-- C6: the transition is total, also on degenerate boards — a board whose
width or height is 0 transitions to the degenerate all-dead board of the same
size — and, on any consistent board, every in-range cell access the code
performs succeeds (the `Option` model of indexing never returns `none`). -/
theorem next_total_including_degenerate :
    (∀ b : Board, b.size.1 = 0 ∨ b.size.2 = 0 →
      b.next_board_state = Board.dead_state b.size.1 b.size.2) ∧
    (∀ (b : Board) (r c : Nat), b.wellformed → r < b.size.2 → c < b.size.1 →
      b.cellGet r c = some (b.cellAt r c)) :=
  ⟨next_degenerate, fun b r c hwf hr hc => cellGet_eq_some_cellAt b r c hwf hr hc⟩

/-- Witness for C6 at concrete boards. -/
theorem next_total_including_degenerate_witness :
    (Board.dead_state 0 4).next_board_state = Board.dead_state 0 4 ∧
    (Board.dead_state 2 2).cellGet 1 1 = some ((Board.dead_state 2 2).cellAt 1 1) :=
  ⟨next_total_including_degenerate.1 (Board.dead_state 0 4) (Or.inl rfl),
    next_total_including_degenerate.2 (Board.dead_state 2 2) 1 1 (by decide) (by decide)
      (by decide)⟩

/-- C7: on a 1×1 board the single cell has 0 live neighbours, so the next
board is the 1×1 board with a dead cell, whatever the cell's state was. -/
theorem one_by_one_dies (cl : Cell) :
    (Board.mk (1, 1) [[cl]]).live_neighbours 0 0 = 0 ∧
    (Board.mk (1, 1) [[cl]]).next_board_state = Board.mk (1, 1) [[Cell.Dead]] := by
  cases cl
  · exact ⟨by decide, by decide⟩
  · exact ⟨by decide, by decide⟩

/-- C8: the display of a consistent W×H board is H lines joined by single
newlines with no trailing separator (splitting the text on the newline
character recovers exactly the rendered rows); each line is the row's cells in
column order, each cell two identical characters — U+2588 twice for alive, a
space twice for dead — so each line has 2·W characters. -/
theorem display_line_structure (b : Board) (hwf : b.wellformed) :
    b.display = List.intercalate ['\n'] (b.state.map renderRow) ∧
    (b.state.map renderRow).length = b.size.2 ∧
    (∀ line ∈ b.state.map renderRow, line.length = 2 * b.size.1) ∧
    (∀ row, renderRow row = (row.map fun cl => [cl.glyph, cl.glyph]).flatten) ∧
    Cell.glyph Cell.Alive = '█' ∧ Cell.glyph Cell.Dead = ' ' ∧ Char.toNat '█' = 0x2588 ∧
    (b.state ≠ [] → b.display.splitOn '\n' = b.state.map renderRow) := by
  refine ⟨rfl, ?_, ?_, fun row => rfl, rfl, rfl, by decide, display_splitOn b⟩
  · simp [hwf.1]
  · intro line hline
    simp only [List.mem_map] at hline
    obtain ⟨row, hrow, rfl⟩ := hline
    rw [renderRow_length, hwf.2 row hrow]

/-- Witness for C8 at a concrete board. -/
theorem display_line_structure_witness :
    (Board.mk (2, 2) [[Cell.Alive, Cell.Dead], [Cell.Dead, Cell.Alive]]).display.splitOn '\n' =
      (Board.mk (2, 2) [[Cell.Alive, Cell.Dead], [Cell.Dead, Cell.Alive]]).state.map renderRow ∧
    ((Board.mk (2, 2) [[Cell.Alive, Cell.Dead], [Cell.Dead, Cell.Alive]]).state.map
      renderRow).length = 2 :=
  ⟨(display_line_structure _ (by decide)).2.2.2.2.2.2.2 (by decide),
    (display_line_structure _ (by decide)).2.1⟩

/-- C9: the transition is not idempotent in general: a blinker's second
generation differs from its first. -/
theorem next_not_idempotent :
    ∃ b : Board, b.next_board_state.next_board_state ≠ b.next_board_state :=
  ⟨Board.mk (3, 3) [[Cell.Dead, Cell.Alive, Cell.Dead], [Cell.Dead, Cell.Alive, Cell.Dead],
    [Cell.Dead, Cell.Alive, Cell.Dead]], by decide⟩

/-- C10: every board produced by `dead_state`, `random_state` (for any RNG
outcome) or `next_board_state` satisfies the consistency invariant: its state
has `size.2` rows and every row has `size.1` cells. -/
theorem constructed_boards_wellformed (w h : Nat) (draws : Nat → Bool) (b : Board) :
    (Board.dead_state w h).wellformed ∧ (Board.random_state w h draws).wellformed ∧
    b.next_board_state.wellformed :=
  ⟨wellformed_dead_state w h, wellformed_random_state w h draws, wellformed_next b⟩
